import Mathlib

/-!
Verification of rpi3-gpiovirtbuf.

A shallow embedding of `rpi3-gpiovirtbuf.c`, the tool that switches the
Raspberry Pi 3 activity LED through the virtual GPIO buffer of the firmware, and
proofs about its counter protocol and its mailbox request framing.

Machine integers are natural numbers or integers with explicit reductions:
`uint16_t` is reduced modulo `2^16`, `uint32_t` modulo `2^32`, and the cast
to `int16_t` wraps around modulo `2^16`.
-/

namespace GpioVirtBuf

/-! ## Integer conversions -/

/-- Conversion of a value to `uint16_t`. -/
def uint16_cast (x : Nat) : Nat := x % 65536

/-- Conversion of a value to `uint32_t`. -/
def uint32_cast (x : Nat) : Nat := x % 4294967296

/-- Conversion of an `int` to `int16_t`: the value is reduced modulo `2^16`
into the range `-32768 .. 32767`. -/
def int16_cast (x : Int) : Int :=
  if x % 65536 < 32768 then x % 65536 else x % 65536 - 65536

/-! ## The line toggle, `gpio_set` (source lines 97-114) -/

/-- The function `gpio_set(addr, off, val)`. The mapped buffer `addr` is a list
of 32-bit words and the result is the buffer after the call. An index outside
the buffer is an access the C program leaves undefined; the model answers
`none` there. -/
def gpio_set (addr : List Nat) (off : Nat) (val : Int) : Option (List Nat) :=
  match addr[off]? with
  | none => none
  | some w =>
    let enables := uint16_cast (w >>> 16)
    let disables := uint16_cast (w >>> 0)
    let diff := int16_cast ((enables : Int) - (disables : Int))
    let lit := decide (diff > 0)
    if (val ≠ 0 ∧ lit = true) ∨ (val = 0 ∧ lit = false) then
      some addr
    else
      let enables1 := if val ≠ 0 then uint16_cast (enables + 1) else enables
      let disables1 := if val ≠ 0 then disables else uint16_cast (disables + 1)
      some (addr.set off (uint32_cast ((enables1 <<< 16) ||| (disables1 <<< 0))))

/-! ## The derived line state of a counter word -/

/-- The `enables` counter of a word: bits 31..16. -/
def enables_of (w : Nat) : Nat := w / 65536 % 65536

/-- The `disables` counter of a word: bits 15..0. -/
def disables_of (w : Nat) : Nat := w % 65536

/-- The signed 16-bit difference `enables - disables` of a word. -/
def diff_of (w : Nat) : Int :=
  int16_cast ((enables_of w : Int) - (disables_of w : Int))

/-- The logical line state derived from a word: the signed difference is
positive. -/
def currently_on (w : Nat) : Prop := 0 < diff_of w

instance (w : Nat) : Decidable (currently_on w) := by
  unfold currently_on; infer_instance

/-- The word written by a call that has to change the line state: one counter
incremented within 16 bits, the other kept. -/
def stepped (w : Nat) (val : Int) : Nat :=
  if val ≠ 0 then (enables_of w + 1) % 65536 * 65536 + disables_of w
  else enables_of w * 65536 + (disables_of w + 1) % 65536

/-- The word stored at `off` once `gpio_set addr off val` has returned. -/
def word_after (addr : List Nat) (off : Nat) (val : Int) : Option Nat :=
  (gpio_set addr off val).bind (fun b => b[off]?)

/-- The reference `set_line`, written from the seven steps of the
specification: read the word, split it, take the signed difference, compare
the derived state with the requested one, and either leave the buffer alone or
write the word back with exactly one counter incremented within 16 bits. -/
def set_line (buffer : List Nat) (line_index : Nat) (desired_on : Bool) : List Nat :=
  let word := buffer.getD line_index 0
  let enables : Nat := word / 2 ^ 16 % 2 ^ 16
  let disables : Nat := word % 2 ^ 16
  let diff : Int := int16_cast ((enables : Int) - (disables : Int))
  let on_now := decide (diff > 0)
  if on_now = desired_on then buffer
  else if desired_on = true then
    buffer.set line_index ((((enables + 1) % 2 ^ 16) <<< 16) ||| disables)
  else
    buffer.set line_index ((enables <<< 16) ||| ((disables + 1) % 2 ^ 16))

/-! ## Bus addresses (source line 29) -/

/-- The operator `~` on a 32-bit unsigned value. -/
def uint32_not (x : Nat) : Nat := 4294967295 ^^^ x

/-- The C expression `BUS_TO_PHYS(addr)`, that is `addr & ~0xc0000000`, on a
32-bit unsigned address. -/
def BUS_TO_PHYS (addr : Nat) : Nat := addr &&& uint32_not 0xc0000000

/-! ## Byte memory

The request buffer `p` and the buffer `tag_data` of the caller are lists of
bytes. A 32-bit word is four bytes, least significant first, as on the ARM
cores of the board. An access that leaves its block answers `none`. -/

/-- The four bytes of a 32-bit word, least significant first. -/
def le32 (v : Nat) : List Nat :=
  [v % 256, v / 256 % 256, v / 65536 % 256, v / 16777216 % 256]

/-- Writes the bytes `bs` into `mem` from byte `pos` on. -/
def store_bytes (mem : List Nat) (pos : Nat) (bs : List Nat) : Option (List Nat) :=
  if pos + bs.length ≤ mem.length then
    some (mem.take pos ++ bs ++ mem.drop (pos + bs.length))
  else none

/-- Reads `n` bytes of `mem` from byte `pos` on. -/
def load_bytes (mem : List Nat) (pos n : Nat) : Option (List Nat) :=
  if pos + n ≤ mem.length then some ((mem.drop pos).take n) else none

/-- The assignment `p[i] = v` through a `uint32_t *`. -/
def store32 (p : List Nat) (i v : Nat) : Option (List Nat) :=
  store_bytes p (4 * i) (le32 (uint32_cast v))

/-- The value of `p[i]` read through a `uint32_t *`. -/
def load32 (p : List Nat) (i : Nat) : Option Nat :=
  if 4 * i + 4 ≤ p.length then
    some (p.getD (4 * i) 0 + 256 * p.getD (4 * i + 1) 0
      + 65536 * p.getD (4 * i + 2) 0 + 16777216 * p.getD (4 * i + 3) 0)
  else none

/-- The call `memcpy(dst + dpos, src + spos, n)`, positions counted in bytes. -/
def memcpy (dst : List Nat) (dpos : Nat) (src : List Nat) (spos n : Nat) :
    Option (List Nat) :=
  (load_bytes src spos n).bind (store_bytes dst dpos)

/-! ## The environment of the program -/

/-- The constants the program takes from `raspberrypi-firmware.h`, a header
that is not among the sources; they are parameters of the model. -/
structure Header where
  RPI_FIRMWARE_STATUS_REQUEST : Nat
  RPI_FIRMWARE_STATUS_SUCCESS : Nat
  RPI_FIRMWARE_PROPERTY_END : Nat
  RPI_FIRMWARE_FRAMEBUFFER_GET_GPIOVIRTBUF : Nat

/-- The answers of the C library and of the kernel to the calls the program
makes. -/
structure Sys where
  /-- The number of bits of `size_t`. -/
  size_bits : Nat
  /-- The library function `atoi`. -/
  atoi : String → Int
  /-- The descriptor returned by `open` on a path, `none` for `-1`. -/
  sys_open : String → Option Nat
  /-- Whether `malloc` of the given size returns a block. -/
  malloc_ok : Nat → Bool
  /-- The byte found at each position of a fresh block. -/
  uninit : Nat → Nat
  /-- The property `ioctl` on a descriptor and a buffer: `none` for `-1`,
  otherwise the bytes of the buffer after the call. -/
  ioctl : Nat → List Nat → Option (List Nat)
  /-- Whether `mmap` of the given size on a descriptor at the given base
  returns a mapping. -/
  mmap_ok : Nat → Nat → Nat → Bool
  /-- Whether `munmap` of the given size succeeds. -/
  munmap_ok : Nat → Bool
  /-- Whether `close` of a descriptor succeeds. -/
  sys_close : Nat → Bool

/-- The places where the program calls `exit(EXIT_FAILURE)`, named after the
call that failed. -/
inductive Fatal where
  | usage
  | open_failed (path : String)
  | malloc
  | ioctl
  | status (code : Nat)
  | mmap
  | close
  | munmap
  deriving DecidableEq

/-- The path `RPI_FIRMWARE_DEV`. -/
def RPI_FIRMWARE_DEV : String := "/dev/vcio"

/-- The path `DEV_MEM`. -/
def DEV_MEM : String := "/dev/mem"

/-- The function `rpi_firmware_open()`: the descriptor, or a fatal exit. -/
def rpi_firmware_open (S : Sys) : Except Fatal Nat :=
  match S.sys_open RPI_FIRMWARE_DEV with
  | none => .error (.open_failed RPI_FIRMWARE_DEV)
  | some fd => .ok fd

/-- The function `rpi_firmware_close(fd)`. -/
def rpi_firmware_close (S : Sys) (fd : Nat) : Except Fatal Unit :=
  if S.sys_close fd = false then .error .close else .ok ()

/-- The function `mapmem_cpu(base, size)`: `open`, `mmap`, then `close`, each
fatal on failure. The words of the window it maps are a parameter of `main`. -/
def mapmem_cpu (S : Sys) (base size : Nat) : Except Fatal Unit :=
  match S.sys_open DEV_MEM with
  | none => .error (.open_failed DEV_MEM)
  | some fd =>
    if S.mmap_ok size fd base = false then .error .mmap
    else if S.sys_close fd = false then .error .close
    else .ok ()

/-- The function `unmapmem_cpu(addr, size)`. -/
def unmapmem_cpu (S : Sys) (size : Nat) : Except Fatal Unit :=
  if S.munmap_ok size = false then .error .munmap else .ok ()

/-- How the building of the request ends: with the buffer `p` that is handed
to `ioctl`, with a fatal exit, or with an access outside a block. -/
inductive Request where
  | built (p : List Nat)
  | exit_failure (why : Fatal)
  | undefined
  deriving DecidableEq

/-- How a call ends. `returned s` is a normal return, `s` being the memory of
the caller; `exit_failure why s` is a fatal exit, `s` being that memory at the
moment of the exit; `undefined` is an access outside a block. -/
inductive Outcome (σ : Type) where
  | returned (s : σ)
  | exit_failure (why : Fatal) (s : σ)
  | undefined
  deriving DecidableEq

/-- The call ended in `exit(EXIT_FAILURE)`. -/
def Outcome.fatal {σ : Type} : Outcome σ → Prop
  | .exit_failure _ _ => True
  | _ => False

/-! ## The firmware call, `rpi_firmware_property` (source lines 62-95) -/

/-- The byte size `(5 + buf_size / 4 + 1) * sizeof(*p)`, computed in
`size_t`. -/
def request_size (S : Sys) (buf_size : Nat) : Nat :=
  ((5 + buf_size / 4 + 1) * 4) % 2 ^ S.size_bits

/-- Lines 68-81 of `rpi_firmware_property`: the request buffer as it stands
when `ioctl` is called. The block comes from `malloc` with arbitrary
contents and is filled word by word. -/
def property_request (H : Header) (S : Sys) (tag : Nat) (tag_data : List Nat)
    (buf_size : Nat) : Request :=
  if S.malloc_ok (request_size S buf_size) = false then
    .exit_failure .malloc
  else
    let p0 := (List.range (request_size S buf_size)).map S.uninit
    let filled : Option (List Nat) := do
      let p1 ← store32 p0 0 (request_size S buf_size)
      let p2 ← store32 p1 1 H.RPI_FIRMWARE_STATUS_REQUEST
      let p3 ← store32 p2 2 tag
      let p4 ← store32 p3 3 buf_size
      let p5 ← store32 p4 4 0
      let p6 ← memcpy p5 (4 * 5) tag_data 0 buf_size
      store32 p6 (5 + buf_size / 4) H.RPI_FIRMWARE_PROPERTY_END
    match filled with
    | none => .undefined
    | some p => .built p

/-- The function `rpi_firmware_property(fd, tag, tag_data, buf_size)`. The
state carried by the outcome is the buffer `tag_data` of the caller. -/
def rpi_firmware_property (H : Header) (S : Sys) (fd tag : Nat) (tag_data : List Nat)
    (buf_size : Nat) : Outcome (List Nat) :=
  match property_request H S tag tag_data buf_size with
  | .exit_failure why => .exit_failure why tag_data
  | .undefined => .undefined
  | .built p =>
    match S.ioctl fd p with
    | none => .exit_failure .ioctl tag_data
    | some r =>
      match load32 r 1 with
      | none => .undefined
      | some st =>
        if st ≠ H.RPI_FIRMWARE_STATUS_SUCCESS then .exit_failure (.status st) tag_data
        else
          match memcpy tag_data 0 r (4 * 5) buf_size with
          | none => .undefined
          | some t => .returned t

/-! ## The program, `main` (source lines 156-185) -/

/-- The 32-bit value held in the first four bytes of a buffer. -/
def of_le32 (bs : List Nat) : Nat :=
  bs.getD 0 0 + 256 * bs.getD 1 0 + 65536 * bs.getD 2 0 + 16777216 * bs.getD 3 0

/-- The function `main`. `argv` holds the program name and the arguments, and
`page` holds the words of the window that `mmap` gives at the translated
address. The state carried by the outcome is that window. -/
def main (H : Header) (S : Sys) (argv : List String) (page : List Nat) :
    Outcome (List Nat) :=
  if argv.length ≠ 2 then .exit_failure .usage page
  else
    let off := 0
    let val := S.atoi (argv.getD 1 "")
    match rpi_firmware_open S with
    | .error why => .exit_failure why page
    | .ok mb =>
      match rpi_firmware_property H S mb H.RPI_FIRMWARE_FRAMEBUFFER_GET_GPIOVIRTBUF
          (le32 0) 4 with
      | .undefined => .undefined
      | .exit_failure why _ => .exit_failure why page
      | .returned gvp =>
        match mapmem_cpu S (BUS_TO_PHYS (of_le32 gvp)) 4096 with
        | .error why => .exit_failure why page
        | .ok _ =>
          match gpio_set page off val with
          | none => .undefined
          | some page1 =>
            match unmapmem_cpu S 4096 with
            | .error why => .exit_failure why page1
            | .ok _ =>
              match rpi_firmware_close S mb with
              | .error why => .exit_failure why page1
              | .ok _ => .returned page1

/-- Every call that `main` makes succeeds: `malloc` of the 28-byte request,
which `size_t` can hold, `open` and `close` on both devices, the `ioctl`,
which answers in the buffer it was given with the success status, `mmap` of a
page at any base, and `munmap`. -/
def calls_succeed (H : Header) (S : Sys) : Prop :=
  28 < 2 ^ S.size_bits
  ∧ S.malloc_ok (request_size S 4) = true
  ∧ (∃ mb, S.sys_open RPI_FIRMWARE_DEV = some mb ∧ S.sys_close mb = true ∧
      ∀ p, property_request H S H.RPI_FIRMWARE_FRAMEBUFFER_GET_GPIOVIRTBUF (le32 0) 4
          = .built p →
        ∃ r, S.ioctl mb p = some r ∧ r.length = p.length
          ∧ load32 r 1 = some H.RPI_FIRMWARE_STATUS_SUCCESS)
  ∧ (∃ fd, S.sys_open DEV_MEM = some fd ∧ S.sys_close fd = true
      ∧ ∀ base, S.mmap_ok 4096 fd base = true)
  ∧ S.munmap_ok 4096 = true

/-! ## Sample environments

The header constants are those of the firmware header of the Linux kernel. In
the first environment every call succeeds and the firmware answers with the
bus address `0xFE7A5000`; in the second `malloc` returns no block. They serve
as concrete inputs. -/

/-- The constants of the kernel header. -/
def sample_header : Header := Header.mk 0 0x80000000 0 0x00040010

/-- A firmware that marks the request as served and fills in a bus address. -/
def sample_firmware (p : List Nat) : Option (List Nat) :=
  (store32 p 1 0x80000000).bind (fun q => store32 q 5 0xFE7A5000)

/-- An environment in which every call succeeds. -/
def sample_sys : Sys :=
  Sys.mk 32 (fun s => if s = "0" then 0 else 1)
    (fun path => if path = "/dev/vcio" then some 3 else some 4)
    (fun _ => true) (fun _ => 170) (fun _ p => sample_firmware p)
    (fun _ _ _ => true) (fun _ => true) (fun _ => true)

/-- A served request for the buffer address, with the success status in
word 1. -/
def served_answer : List Nat :=
  [28, 0, 0, 0, 0, 0, 0, 128, 16, 0, 4, 0, 4, 0, 0, 0, 4, 0, 0, 128,
    0, 80, 122, 254, 0, 0, 0, 0]

/-- An environment in which `malloc` fails and nothing else does: the control
call accepts every buffer and answers with `served_answer`. -/
def sample_sys_no_memory : Sys :=
  Sys.mk 32 (fun s => if s = "0" then 0 else 1)
    (fun path => if path = "/dev/vcio" then some 3 else some 4)
    (fun _ => false) (fun _ => 170) (fun _ _ => some served_answer)
    (fun _ _ _ => true) (fun _ => true) (fun _ => true)

/-! ## Lemmas on the counter word -/

theorem pack_eq (e d : Nat) (hd : d < 65536) :
    (e <<< 16) ||| d = e * 65536 + d := by
  have h : d < 2 ^ 16 := by omega
  have := Nat.mul_add_lt_is_or h e
  rw [Nat.shiftLeft_eq, Nat.mul_comm e (2 ^ 16), ← this]

theorem pack_cast (e d : Nat) (he : e < 65536) (hd : d < 65536) :
    uint32_cast ((e <<< 16) ||| d) = e * 65536 + d := by
  rw [pack_eq e d hd]
  unfold uint32_cast
  omega

theorem enables_of_lt (w : Nat) : enables_of w < 65536 := by
  unfold enables_of; omega

theorem disables_of_lt (w : Nat) : disables_of w < 65536 := by
  unfold disables_of; omega

theorem enables_of_pack (e d : Nat) (he : e < 65536) (hd : d < 65536) :
    enables_of (e * 65536 + d) = e := by
  unfold enables_of; omega

theorem disables_of_pack (e d : Nat) (hd : d < 65536) :
    disables_of (e * 65536 + d) = d := by
  unfold disables_of; omega

/-- What `gpio_set` does, in terms of the derived state and `stepped`. -/
theorem gpio_set_eq (addr : List Nat) (off : Nat) (val : Int) (w : Nat)
    (hw : addr[off]? = some w) :
    gpio_set addr off val =
      some (if (currently_on w ↔ val ≠ 0) then addr else addr.set off (stepped w val)) := by
  have he := enables_of_lt w
  have hd := disables_of_lt w
  unfold gpio_set
  simp only [hw]
  have e1 : uint16_cast (w >>> 16) = enables_of w := by
    unfold uint16_cast enables_of; rw [Nat.shiftRight_eq_div_pow]
  have e2 : uint16_cast (w >>> 0) = disables_of w := by
    unfold uint16_cast disables_of; rw [Nat.shiftRight_zero]
  simp only [e1, e2]
  have hdiff : int16_cast ((enables_of w : Int) - (disables_of w : Int)) = diff_of w := rfl
  simp only [hdiff, Nat.shiftLeft_zero, uint16_cast]
  have hp1 := pack_cast (enables_of w) ((disables_of w + 1) % 65536) he (by omega)
  have hp2 := pack_cast ((enables_of w + 1) % 65536) (disables_of w) (by omega) hd
  by_cases hv : val = 0
  · by_cases hl : 0 < diff_of w
    · simp [hv, hl, currently_on, stepped, hp1]
    · simp [hv, hl, currently_on]
  · by_cases hl : 0 < diff_of w
    · simp [hv, hl, currently_on]
    · simp [hv, hl, currently_on, stepped, hp2]

theorem enables_of_stepped (w : Nat) (val : Int) :
    enables_of (stepped w val) =
      if val ≠ 0 then (enables_of w + 1) % 65536 else enables_of w := by
  have he := enables_of_lt w
  have hd := disables_of_lt w
  unfold stepped
  split
  · exact enables_of_pack _ _ (by omega) hd
  · exact enables_of_pack _ _ he (by omega)

theorem disables_of_stepped (w : Nat) (val : Int) :
    disables_of (stepped w val) =
      if val ≠ 0 then disables_of w else (disables_of w + 1) % 65536 := by
  have hd := disables_of_lt w
  unfold stepped
  split
  · exact disables_of_pack _ _ hd
  · exact disables_of_pack _ _ (by omega)

/-- Turning on from a state that is off raises the signed difference by one. -/
theorem diff_stepped_on (w : Nat) (val : Int) (hv : val ≠ 0) (h : diff_of w ≤ 0) :
    diff_of (stepped w val) = diff_of w + 1 := by
  have he := enables_of_lt w
  have hd := disables_of_lt w
  unfold diff_of at h ⊢
  rw [enables_of_stepped, disables_of_stepped]
  simp only [hv, ne_eq, not_false_eq_true, if_true]
  unfold int16_cast at h ⊢
  split at h <;> split <;> omega

/-- Turning off from a state that is on lowers the signed difference by one. -/
theorem diff_stepped_off (w : Nat) (h : 0 < diff_of w) :
    diff_of (stepped w 0) = diff_of w - 1 := by
  have he := enables_of_lt w
  have hd := disables_of_lt w
  unfold diff_of at h ⊢
  rw [enables_of_stepped, disables_of_stepped]
  simp only [ne_eq, not_true_eq_false, if_false]
  unfold int16_cast at h ⊢
  split at h <;> split <;> omega

theorem stepped_ne (w : Nat) (val : Int) : stepped w val ≠ w := by
  intro h
  have h1 := enables_of_stepped w val
  have h2 := disables_of_stepped w val
  have he := enables_of_lt w
  have hd := disables_of_lt w
  rw [h] at h1 h2
  split at h1
  · omega
  · rw [if_neg (by assumption)] at h2; omega

theorem diff_zero_iff (w : Nat) : diff_of w = 0 ↔ enables_of w = disables_of w := by
  have he := enables_of_lt w
  have hd := disables_of_lt w
  unfold diff_of int16_cast
  split <;> omega

/-- The word at `off` after the call, in terms of the derived state. -/
theorem word_after_eq (addr : List Nat) (off : Nat) (val : Int) (w : Nat)
    (hw : addr[off]? = some w) :
    word_after addr off val =
      some (if (currently_on w ↔ val ≠ 0) then w else stepped w val) := by
  have hlt : off < addr.length := by
    rcases Nat.lt_or_ge off addr.length with h | h
    · exact h
    · rw [List.getElem?_eq_none h] at hw; cases hw
  unfold word_after
  rw [gpio_set_eq addr off val w hw]
  by_cases hc : (currently_on w ↔ val ≠ 0)
  · simp [hc, hw]
  · simp [hc, hlt]

/-- The reference `set_line` in terms of the derived state and `stepped`. -/
theorem set_line_eq (addr : List Nat) (off : Nat) (val : Int) (w : Nat)
    (hw : addr[off]? = some w) :
    set_line addr off (decide (val ≠ 0)) =
      if (currently_on w ↔ val ≠ 0) then addr else addr.set off (stepped w val) := by
  have he := enables_of_lt w
  have hd := disables_of_lt w
  have hg : addr.getD off 0 = w := by simp [hw]
  have h16 : (2 : Nat) ^ 16 = 65536 := by norm_num
  unfold set_line
  simp only [hg, h16]
  have hdiff : int16_cast (((w / 65536 % 65536 : Nat) : Int) - ((w % 65536 : Nat) : Int))
      = diff_of w := rfl
  simp only [hdiff]
  by_cases hv : val = 0
  · by_cases hl : 0 < diff_of w
    · simp [hv, hl, currently_on, stepped, enables_of, disables_of]
      rw [pack_eq _ _ (by omega)]
    · simp [hv, hl, currently_on]
  · by_cases hl : 0 < diff_of w
    · simp [hv, hl, currently_on]
    · simp [hv, hl, currently_on, stepped, enables_of, disables_of]
      rw [pack_eq _ _ (by omega)]

/-! ## Theorems on `gpio_set` -/

/-- C9: on every buffer and every in-range index, `gpio_set` returns and its
result is the buffer computed by the step-by-step reference `set_line` with
`desired_on = (val ≠ 0)`. The buffer keeps its length and every word at
another index; when the derived state already equals the requested one the
buffer is unchanged; otherwise the word at the index becomes
`((enables + 1) mod 2^16) << 16 | disables` when turning on and
`enables << 16 | ((disables + 1) mod 2^16)` when turning off, so one counter
is incremented within 16 bits and the other is kept. -/
theorem gpio_set_refines_set_line (addr : List Nat) (off : Nat) (val : Int) (w : Nat)
    (hw : addr[off]? = some w) :
    ∃ b, gpio_set addr off val = some b
      ∧ b = set_line addr off (decide (val ≠ 0))
      ∧ b.length = addr.length
      ∧ (∀ j, j ≠ off → b[j]? = addr[j]?)
      ∧ ((currently_on w ↔ val ≠ 0) → b = addr)
      ∧ (¬ currently_on w → val ≠ 0 →
          b[off]? = some ((((enables_of w + 1) % 2 ^ 16) <<< 16) ||| disables_of w)
          ∧ ∀ v, b[off]? = some v →
              enables_of v = (enables_of w + 1) % 2 ^ 16 ∧ disables_of v = disables_of w)
      ∧ (currently_on w → val = 0 →
          b[off]? = some ((enables_of w <<< 16) ||| ((disables_of w + 1) % 2 ^ 16))
          ∧ ∀ v, b[off]? = some v →
              enables_of v = enables_of w ∧ disables_of v = (disables_of w + 1) % 2 ^ 16) := by
  have he := enables_of_lt w
  have hd := disables_of_lt w
  have hlt : off < addr.length := by
    rcases Nat.lt_or_ge off addr.length with h | h
    · exact h
    · rw [List.getElem?_eq_none h] at hw; cases hw
  have h16 : (2 : Nat) ^ 16 = 65536 := by norm_num
  refine ⟨_, gpio_set_eq addr off val w hw, (set_line_eq addr off val w hw).symm, ?_, ?_, ?_, ?_, ?_⟩
  · split <;> simp
  · intro j hj
    split
    · rfl
    · rw [List.getElem?_set]; simp [Ne.symm hj]
  · intro hc; simp [hc]
  · intro hl hv
    have hc : ¬ (currently_on w ↔ val ≠ 0) := by simp [hl, hv]
    have hs : (addr.set off (stepped w val))[off]? = some (stepped w val) := by
      simp [hlt]
    rw [if_neg hc, hs, h16, pack_eq _ _ hd]
    refine ⟨by simp [stepped, hv], ?_⟩
    intro v hvv
    cases hvv
    rw [enables_of_stepped, disables_of_stepped]
    simp [hv]
  · intro hl hv
    have hc : ¬ (currently_on w ↔ val ≠ 0) := by simp [hl, hv]
    have hs : (addr.set off (stepped w val))[off]? = some (stepped w val) := by
      simp [hlt]
    rw [if_neg hc, hs, h16, pack_eq _ _ (by omega)]
    refine ⟨by simp [stepped, hv], ?_⟩
    intro v hvv
    cases hvv
    rw [enables_of_stepped, disables_of_stepped]
    simp [hv]

/-- Witness for C9: a three-word buffer whose word 1 has `enables = 2`,
`disables = 2`, switched on. -/
theorem gpio_set_refines_set_line_witness :
    ([7, 131074, 9] : List Nat)[1]? = some 131074
    ∧ ∃ b, gpio_set [7, 131074, 9] 1 1 = some b
      ∧ b = set_line [7, 131074, 9] 1 (decide ((1 : Int) ≠ 0))
      ∧ b.length = [7, 131074, 9].length
      ∧ (∀ j, j ≠ 1 → b[j]? = [7, 131074, 9][j]?)
      ∧ ((currently_on 131074 ↔ (1 : Int) ≠ 0) → b = [7, 131074, 9])
      ∧ (¬ currently_on 131074 → (1 : Int) ≠ 0 →
          b[1]? = some ((((enables_of 131074 + 1) % 2 ^ 16) <<< 16) ||| disables_of 131074)
          ∧ ∀ v, b[1]? = some v →
              enables_of v = (enables_of 131074 + 1) % 2 ^ 16
                ∧ disables_of v = disables_of 131074)
      ∧ (currently_on 131074 → (1 : Int) = 0 →
          b[1]? = some ((enables_of 131074 <<< 16) ||| ((disables_of 131074 + 1) % 2 ^ 16))
          ∧ ∀ v, b[1]? = some v →
              enables_of v = enables_of 131074
                ∧ disables_of v = (disables_of 131074 + 1) % 2 ^ 16) :=
  ⟨by decide, gpio_set_refines_set_line [7, 131074, 9] 1 1 131074 (by decide)⟩

/-- C10: the exact condition under which one call reaches the requested
state. Turning on from an off state (signed difference at most zero) raises
the difference by exactly one and the line reads on afterwards precisely when
the difference was zero; turning off from an on state lowers the difference by
exactly one and the line reads off afterwards precisely when the difference
was one. In the remaining mismatching cases the derived state stays as it
was. The difference is zero exactly when the two counters are equal. -/
theorem toggle_exact (addr : List Nat) (off : Nat) (val : Int) (w : Nat)
    (hw : addr[off]? = some w) :
    (diff_of w = 0 ↔ enables_of w = disables_of w)
    ∧ (val ≠ 0 → ¬ currently_on w →
      ∃ v, word_after addr off val = some v
        ∧ diff_of v = diff_of w + 1
        ∧ (currently_on v ↔ diff_of w = 0)
        ∧ (diff_of w ≠ 0 → ¬ currently_on v))
    ∧ (val = 0 → currently_on w →
      ∃ v, word_after addr off val = some v
        ∧ diff_of v = diff_of w - 1
        ∧ (¬ currently_on v ↔ diff_of w = 1)
        ∧ (diff_of w ≠ 1 → currently_on v)) := by
  refine ⟨diff_zero_iff w, ?_, ?_⟩
  · intro hv hl
    have hc : ¬ (currently_on w ↔ val ≠ 0) := by simp [hl, hv]
    have hle : diff_of w ≤ 0 := by unfold currently_on at hl; omega
    have hd := diff_stepped_on w val hv hle
    refine ⟨stepped w val, ?_, hd, ?_, ?_⟩
    · rw [word_after_eq addr off val w hw, if_neg hc]
    · unfold currently_on; omega
    · unfold currently_on; omega
  · intro hv hl
    subst hv
    have hc : ¬ (currently_on w ↔ (0 : Int) ≠ 0) := by simp [hl]
    have hd := diff_stepped_off w hl
    unfold currently_on at hl
    refine ⟨stepped w 0, ?_, hd, ?_, ?_⟩
    · rw [word_after_eq addr off 0 w hw, if_neg hc]
    · unfold currently_on; omega
    · unfold currently_on; omega

/-- Witness for C10: one word with `enables = 3`, `disables = 2`, switched
off. -/
theorem toggle_exact_witness :
    ([196610] : List Nat)[0]? = some 196610
    ∧ ((diff_of 196610 = 0 ↔ enables_of 196610 = disables_of 196610)
    ∧ ((0 : Int) ≠ 0 → ¬ currently_on 196610 →
      ∃ v, word_after [196610] 0 0 = some v
        ∧ diff_of v = diff_of 196610 + 1
        ∧ (currently_on v ↔ diff_of 196610 = 0)
        ∧ (diff_of 196610 ≠ 0 → ¬ currently_on v))
    ∧ ((0 : Int) = 0 → currently_on 196610 →
      ∃ v, word_after [196610] 0 0 = some v
        ∧ diff_of v = diff_of 196610 - 1
        ∧ (¬ currently_on v ↔ diff_of 196610 = 1)
        ∧ (diff_of 196610 ≠ 1 → currently_on v))) :=
  ⟨by decide, toggle_exact [196610] 0 0 196610 (by decide)⟩

/-- C1, refuted as stated: the word with `enables = 0`, `disables = 5` reads
off, and after a call that asks for on it holds `enables = 1`, `disables = 5`
and still reads off. -/
theorem toggle_counterexample :
    ([5] : List Nat)[0]? = some 5
    ∧ ¬ currently_on 5
    ∧ word_after [5] 0 1 = some 65541
    ∧ ¬ currently_on 65541 := by
  decide

/-- C1, amended: from a word whose signed difference is zero (which reads
off) a call asking for on leaves a word that reads on, and from a word whose
signed difference is one (which reads on) a call asking for off leaves a word
that reads off. -/
theorem toggle_from_balanced (addr : List Nat) (off : Nat) (val : Int) (w : Nat)
    (hw : addr[off]? = some w) :
    (val ≠ 0 → diff_of w = 0 →
      ¬ currently_on w ∧ ∃ v, word_after addr off val = some v ∧ currently_on v)
    ∧ (val = 0 → diff_of w = 1 →
      currently_on w ∧ ∃ v, word_after addr off val = some v ∧ ¬ currently_on v) := by
  constructor
  · intro hv h0
    have hl : ¬ currently_on w := by unfold currently_on; omega
    have hc : ¬ (currently_on w ↔ val ≠ 0) := by simp [hl, hv]
    refine ⟨hl, stepped w val, ?_, ?_⟩
    · rw [word_after_eq addr off val w hw, if_neg hc]
    · have := diff_stepped_on w val hv (by omega)
      unfold currently_on; omega
  · intro hv h1
    subst hv
    have hl : currently_on w := by unfold currently_on; omega
    have hc : ¬ (currently_on w ↔ (0 : Int) ≠ 0) := by simp [hl]
    refine ⟨hl, stepped w 0, ?_, ?_⟩
    · rw [word_after_eq addr off 0 w hw, if_neg hc]
    · have := diff_stepped_off w hl
      unfold currently_on; omega

/-- Witness for the amended C1: a word with `enables = disables = 4`,
switched on. -/
theorem toggle_from_balanced_witness :
    ([262148] : List Nat)[0]? = some 262148
    ∧ (((1 : Int) ≠ 0 → diff_of 262148 = 0 →
      ¬ currently_on 262148 ∧ ∃ v, word_after [262148] 0 1 = some v ∧ currently_on v)
    ∧ ((1 : Int) = 0 → diff_of 262148 = 1 →
      currently_on 262148 ∧ ∃ v, word_after [262148] 0 1 = some v ∧ ¬ currently_on v)) :=
  ⟨by decide, toggle_from_balanced [262148] 0 1 262148 (by decide)⟩

/-- C2, refuted as stated: on the word with `enables = 0`, `disables = 5` two
calls asking for on both write, and the second leaves a different word from
the first. -/
theorem idempotence_counterexample :
    gpio_set [5] 0 1 = some [65541]
    ∧ gpio_set [65541] 0 1 = some [131077]
    ∧ ([131077] : List Nat) ≠ [65541] := by
  decide

/-- The state requested is reached by one call from a mismatching state exactly
from a signed difference of zero (asked on) or of one (asked off). -/
theorem stepped_reaches_iff (w : Nat) (val : Int) (hc : ¬ (currently_on w ↔ val ≠ 0)) :
    (currently_on (stepped w val) ↔ val ≠ 0) ↔
      ((val ≠ 0 ∧ diff_of w = 0) ∨ (val = 0 ∧ diff_of w = 1)) := by
  by_cases hv : val = 0
  · subst hv
    have hl : currently_on w := by
      by_contra hl; exact hc (by simp [hl])
    have := diff_stepped_off w hl
    unfold currently_on at hl ⊢
    simp
    omega
  · have hl : ¬ currently_on w := by
      intro hl; exact hc (by simp [hl, hv])
    have := diff_stepped_on w val hv (by unfold currently_on at hl; omega)
    unfold currently_on at hl ⊢
    simp [hv]
    omega

/-- C2, amended: both calls return, and neither changes a word at another
index. The second call with the same `val` leaves the buffer as the first
call left it exactly when the state requested was reached by the first call:
the line already read as requested, or it was asked on from a signed
difference of zero, or asked off from a signed difference of one. In every
other case the first call increments one counter within 16 bits (`enables`
when asked on, `disables` when asked off) and keeps the other, and the second
call increments the same counter once more and keeps the other, so that it
writes a different word. -/
theorem second_call_exact (addr : List Nat) (off : Nat) (val : Int) (w : Nat)
    (hw : addr[off]? = some w) :
    ∃ b b2 v1 v2, gpio_set addr off val = some b ∧ gpio_set b off val = some b2
      ∧ b[off]? = some v1 ∧ b2[off]? = some v2
      ∧ (∀ j, j ≠ off → b[j]? = addr[j]? ∧ b2[j]? = addr[j]?)
      ∧ (gpio_set b off val = some b ↔
          ((currently_on w ↔ val ≠ 0) ∨ (val ≠ 0 ∧ diff_of w = 0)
            ∨ (val = 0 ∧ diff_of w = 1)))
      ∧ (¬ ((currently_on w ↔ val ≠ 0) ∨ (val ≠ 0 ∧ diff_of w = 0)
            ∨ (val = 0 ∧ diff_of w = 1)) →
          v2 ≠ v1
          ∧ (val ≠ 0 →
              enables_of v1 = (enables_of w + 1) % 2 ^ 16
              ∧ disables_of v1 = disables_of w
              ∧ enables_of v2 = (enables_of v1 + 1) % 2 ^ 16
              ∧ disables_of v2 = disables_of v1)
          ∧ (val = 0 →
              enables_of v1 = enables_of w
              ∧ disables_of v1 = (disables_of w + 1) % 2 ^ 16
              ∧ enables_of v2 = enables_of v1
              ∧ disables_of v2 = (disables_of v1 + 1) % 2 ^ 16)) := by
  have hlt : off < addr.length := by
    rcases Nat.lt_or_ge off addr.length with h | h
    · exact h
    · rw [List.getElem?_eq_none h] at hw; cases hw
  have h16 : (2 : Nat) ^ 16 = 65536 := by norm_num
  by_cases hc : (currently_on w ↔ val ≠ 0)
  · have e1 : gpio_set addr off val = some addr := by
      rw [gpio_set_eq addr off val w hw, if_pos hc]
    refine ⟨addr, addr, w, w, e1, e1, hw, hw, fun j _ => ⟨rfl, rfl⟩, ?_, ?_⟩
    · simp [e1, hc]
    · intro h; exact absurd (Or.inl hc) h
  · have e1 : gpio_set addr off val = some (addr.set off (stepped w val)) := by
      rw [gpio_set_eq addr off val w hw, if_neg hc]
    have hs : (addr.set off (stepped w val))[off]? = some (stepped w val) := by
      simp [hlt]
    have hoth : ∀ j, j ≠ off → (addr.set off (stepped w val))[j]? = addr[j]? := by
      intro j hj
      rw [List.getElem?_set]; simp [Ne.symm hj]
    have key := stepped_reaches_iff w val hc
    by_cases hc2 : (currently_on (stepped w val) ↔ val ≠ 0)
    · have e2 : gpio_set (addr.set off (stepped w val)) off val
          = some (addr.set off (stepped w val)) := by
        rw [gpio_set_eq _ off val _ hs, if_pos hc2]
      refine ⟨_, _, _, _, e1, e2, hs, hs, fun j hj => ⟨hoth j hj, hoth j hj⟩, ?_, ?_⟩
      · simp only [e2, true_iff]
        exact Or.inr (key.mp hc2)
      · intro h; exact absurd (Or.inr (key.mp hc2)) h
    · have e2 : gpio_set (addr.set off (stepped w val)) off val
          = some ((addr.set off (stepped w val)).set off (stepped (stepped w val) val)) := by
        rw [gpio_set_eq _ off val _ hs, if_neg hc2]
      have hs2 : ((addr.set off (stepped w val)).set off
          (stepped (stepped w val) val))[off]? = some (stepped (stepped w val) val) := by
        simp [hlt]
      have hoth2 : ∀ j, j ≠ off → ((addr.set off (stepped w val)).set off
          (stepped (stepped w val) val))[j]? = addr[j]? := by
        intro j hj
        rw [List.getElem?_set]; simp [Ne.symm hj]
      have hne : (addr.set off (stepped w val)).set off (stepped (stepped w val) val)
          ≠ addr.set off (stepped w val) := by
        intro h
        have h2 := congrArg (fun l => l[off]?) h
        simp [hlt] at h2
        exact stepped_ne _ _ h2
      refine ⟨_, _, _, _, e1, e2, hs, hs2, fun j hj => ⟨hoth j hj, hoth2 j hj⟩, ?_, ?_⟩
      · constructor
        · intro h
          rw [e2] at h
          exact absurd (Option.some.inj h) hne
        · intro h
          rcases h with h | h
          · exact absurd h hc
          · exact absurd (key.mpr h) hc2
      · intro _
        refine ⟨stepped_ne _ _, ?_, ?_⟩
        · intro hv
          rw [h16]
          refine ⟨?_, ?_, ?_, ?_⟩
          · rw [enables_of_stepped, if_pos hv]
          · rw [disables_of_stepped, if_pos hv]
          · rw [enables_of_stepped (stepped w val), if_pos hv]
          · rw [disables_of_stepped (stepped w val), if_pos hv]
        · intro hv
          have hv2 : ¬ (val ≠ 0) := by simp [hv]
          rw [h16]
          refine ⟨?_, ?_, ?_, ?_⟩
          · rw [enables_of_stepped, if_neg hv2]
          · rw [disables_of_stepped, if_neg hv2]
          · rw [enables_of_stepped (stepped w val), if_neg hv2]
          · rw [disables_of_stepped (stepped w val), if_neg hv2]

/-- Witness for the amended C2: a two-word buffer whose word 0 has
`enables = 0`, `disables = 3`, asked on twice; both calls write. -/
theorem second_call_exact_witness :
    ([3, 8] : List Nat)[0]? = some 3
    ∧ ∃ b b2 v1 v2, gpio_set [3, 8] 0 1 = some b ∧ gpio_set b 0 1 = some b2
      ∧ b[0]? = some v1 ∧ b2[0]? = some v2
      ∧ (∀ j, j ≠ 0 → b[j]? = [3, 8][j]? ∧ b2[j]? = [3, 8][j]?)
      ∧ (gpio_set b 0 1 = some b ↔
          ((currently_on 3 ↔ (1 : Int) ≠ 0) ∨ ((1 : Int) ≠ 0 ∧ diff_of 3 = 0)
            ∨ ((1 : Int) = 0 ∧ diff_of 3 = 1)))
      ∧ (¬ ((currently_on 3 ↔ (1 : Int) ≠ 0) ∨ ((1 : Int) ≠ 0 ∧ diff_of 3 = 0)
            ∨ ((1 : Int) = 0 ∧ diff_of 3 = 1)) →
          v2 ≠ v1
          ∧ ((1 : Int) ≠ 0 →
              enables_of v1 = (enables_of 3 + 1) % 2 ^ 16
              ∧ disables_of v1 = disables_of 3
              ∧ enables_of v2 = (enables_of v1 + 1) % 2 ^ 16
              ∧ disables_of v2 = disables_of v1)
          ∧ ((1 : Int) = 0 →
              enables_of v1 = enables_of 3
              ∧ disables_of v1 = (disables_of 3 + 1) % 2 ^ 16
              ∧ enables_of v2 = enables_of v1
              ∧ disables_of v2 = (disables_of v1 + 1) % 2 ^ 16)) :=
  ⟨by decide, second_call_exact [3, 8] 0 1 3 (by decide)⟩

/-- C4, refuted as stated: from `enables = 0xFFFF`, `disables = 0` (which
reads off, the signed difference being -1) a call asking for on leaves the
word 0, whose signed difference is 0, so the line still reads off. -/
theorem wraparound_counterexample :
    ¬ currently_on 0xFFFF0000
    ∧ ¬ ∃ v, word_after [0xFFFF0000] 0 1 = some v
        ∧ enables_of v = 0 ∧ 0 < diff_of v ∧ currently_on v := by
  refine ⟨by decide, ?_⟩
  rintro ⟨v, hv, -, hd, -⟩
  have h : word_after [0xFFFF0000] 0 1 = some 0 := by decide
  rw [h] at hv
  cases hv
  revert hd
  decide

/-- C4, amended: from the word with `enables = 0xFFFF`, `disables = 0`, whose
signed difference is -1 and which reads off, a call asking for on writes the
word 0: `enables` wraps to 0, the new signed difference is 0, and the line
still reads off. -/
theorem wraparound_stays_off (addr : List Nat) (off : Nat) (val : Int)
    (hw : addr[off]? = some 0xFFFF0000) (hv : val ≠ 0) :
    diff_of 0xFFFF0000 = -1
    ∧ ¬ currently_on 0xFFFF0000
    ∧ gpio_set addr off val = some (addr.set off 0)
    ∧ word_after addr off val = some 0
    ∧ enables_of 0 = 0 ∧ disables_of 0 = 0
    ∧ diff_of 0 = 0
    ∧ ¬ currently_on 0 := by
  have hl : ¬ currently_on 0xFFFF0000 := by decide
  have hc : ¬ (currently_on 0xFFFF0000 ↔ val ≠ 0) := by simp [hl, hv]
  have hs : stepped 0xFFFF0000 val = 0 := by
    unfold stepped; rw [if_pos hv]; decide
  refine ⟨by decide, hl, ?_, ?_, by decide, by decide, by decide, by decide⟩
  · rw [gpio_set_eq addr off val _ hw, if_neg hc, hs]
  · rw [word_after_eq addr off val _ hw, if_neg hc, hs]

/-- Witness for the amended C4: a two-word buffer whose word 1 is
`0xFFFF0000`. -/
theorem wraparound_stays_off_witness :
    ([3, 0xFFFF0000] : List Nat)[1]? = some 0xFFFF0000 ∧ (1 : Int) ≠ 0
    ∧ (diff_of 0xFFFF0000 = -1
      ∧ ¬ currently_on 0xFFFF0000
      ∧ gpio_set [3, 0xFFFF0000] 1 1 = some ([3, 0xFFFF0000].set 1 0)
      ∧ word_after [3, 0xFFFF0000] 1 1 = some 0
      ∧ enables_of 0 = 0 ∧ disables_of 0 = 0
      ∧ diff_of 0 = 0
      ∧ ¬ currently_on 0) :=
  ⟨by decide, by decide, wraparound_stays_off [3, 0xFFFF0000] 1 1 (by decide) (by decide)⟩

/-! ## Theorems on `BUS_TO_PHYS` -/

/-- The translated address equals the bus address modulo `2^30`: bits 31 and
30 are clear and the low 30 bits are those of the bus address. The translation
is idempotent and is the identity below `2^30`. -/
theorem BUS_TO_PHYS_facts (a : Nat) :
    BUS_TO_PHYS a = a % 2 ^ 30
    ∧ BUS_TO_PHYS a < 2 ^ 30
    ∧ (BUS_TO_PHYS a).testBit 31 = false
    ∧ (BUS_TO_PHYS a).testBit 30 = false
    ∧ (∀ i, i < 30 → (BUS_TO_PHYS a).testBit i = a.testBit i)
    ∧ BUS_TO_PHYS (BUS_TO_PHYS a) = BUS_TO_PHYS a
    ∧ (a < 2 ^ 30 → BUS_TO_PHYS a = a) := by
  have hm : uint32_not 0xc0000000 = 2 ^ 30 - 1 := by decide
  have h : ∀ x, BUS_TO_PHYS x = x % 2 ^ 30 := by
    intro x
    unfold BUS_TO_PHYS
    rw [hm, Nat.and_pow_two_sub_one_eq_mod]
  have hlt : a % 2 ^ 30 < 2 ^ 30 := Nat.mod_lt _ (by norm_num)
  refine ⟨h a, ?_, ?_, ?_, ?_, ?_, ?_⟩
  · rw [h]; exact hlt
  · rw [h, Nat.testBit_mod_two_pow]; simp
  · rw [h, Nat.testBit_mod_two_pow]; simp
  · intro i hi
    rw [h, Nat.testBit_mod_two_pow]; simp [hi]
  · rw [h, h, Nat.mod_mod]
  · intro ha
    rw [h, Nat.mod_eq_of_lt ha]

/-! ## Lemmas on byte memory -/

theorem store_bytes_length (mem : List Nat) (pos : Nat) (bs q : List Nat)
    (h : store_bytes mem pos bs = some q) : q.length = mem.length := by
  unfold store_bytes at h
  split at h
  · cases h
    simp
    omega
  · cases h

theorem store_bytes_get (mem : List Nat) (pos : Nat) (bs q : List Nat)
    (h : store_bytes mem pos bs = some q) (j : Nat) :
    q[j]? = if j < pos then mem[j]? else if j < pos + bs.length then bs[j - pos]?
      else mem[j]? := by
  unfold store_bytes at h
  split at h
  · rename_i hle
    cases h
    by_cases h1 : j < pos
    · rw [if_pos h1, List.append_assoc, List.getElem?_append_left (by simp; omega)]
      rw [List.getElem?_take_of_lt h1]
    · rw [if_neg h1, List.append_assoc,
        List.getElem?_append_right (by simp; omega)]
      have hl : (List.take pos mem).length = pos := by simp; omega
      rw [hl]
      by_cases h2 : j < pos + bs.length
      · rw [if_pos h2, List.getElem?_append_left (by omega)]
      · rw [if_neg h2, List.getElem?_append_right (by omega), List.getElem?_drop]
        congr 1
        omega
  · cases h

theorem load_bytes_length (mem : List Nat) (pos n : Nat) (bs : List Nat)
    (h : load_bytes mem pos n = some bs) : bs.length = n := by
  unfold load_bytes at h
  split at h
  · cases h
    simp
    omega
  · cases h

theorem load_bytes_get (mem : List Nat) (pos n : Nat) (bs : List Nat)
    (h : load_bytes mem pos n = some bs) (j : Nat) (hj : j < n) :
    bs[j]? = mem[pos + j]? := by
  unfold load_bytes at h
  split at h
  · cases h
    rw [List.getElem?_take_of_lt hj, List.getElem?_drop]
  · cases h

theorem load32_congr (p q : List Nat) (k : Nat) (hl : q.length = p.length)
    (h : ∀ j, 4 * k ≤ j → j < 4 * k + 4 → q[j]? = p[j]?) :
    load32 q k = load32 p k := by
  unfold load32
  simp only [List.getD_eq_getElem?_getD, hl]
  rw [h (4 * k) (by omega) (by omega), h (4 * k + 1) (by omega) (by omega),
    h (4 * k + 2) (by omega) (by omega), h (4 * k + 3) (by omega) (by omega)]

theorem store32_spec (p : List Nat) (i v : Nat) (h : 4 * i + 4 ≤ p.length) :
    ∃ q, store32 p i v = some q ∧ q.length = p.length
      ∧ load32 q i = some (v % 4294967296)
      ∧ (∀ k, k ≠ i → load32 q k = load32 p k)
      ∧ (∀ j, (j < 4 * i ∨ 4 * i + 4 ≤ j) → q[j]? = p[j]?) := by
  have hlen : (le32 (uint32_cast v)).length = 4 := rfl
  have hs : ∃ q, store32 p i v = some q := by
    unfold store32 store_bytes
    rw [if_pos (by rw [hlen]; exact h)]
    exact ⟨_, rfl⟩
  obtain ⟨q, hq⟩ := hs
  have hql := store_bytes_length _ _ _ _ hq
  have hg := store_bytes_get _ _ _ _ hq
  rw [hlen] at hg
  have hfar : ∀ j, (j < 4 * i ∨ 4 * i + 4 ≤ j) → q[j]? = p[j]? := by
    intro j hj
    rw [hg j]
    rcases hj with hj | hj
    · rw [if_pos hj]
    · rw [if_neg (by omega), if_neg (by omega)]
  refine ⟨q, hq, hql, ?_, ?_, hfar⟩
  · unfold load32
    rw [if_pos (by omega)]
    simp only [List.getD_eq_getElem?_getD]
    rw [hg (4 * i), hg (4 * i + 1), hg (4 * i + 2), hg (4 * i + 3)]
    simp only [Nat.lt_irrefl, if_false, Nat.sub_self,
      show 4 * i + 1 - 4 * i = 1 by omega, show 4 * i + 2 - 4 * i = 2 by omega,
      show 4 * i + 3 - 4 * i = 3 by omega,
      show ¬ (4 * i + 1 < 4 * i) by omega, show ¬ (4 * i + 2 < 4 * i) by omega,
      show ¬ (4 * i + 3 < 4 * i) by omega,
      show 4 * i < 4 * i + 4 by omega, show 4 * i + 1 < 4 * i + 4 by omega,
      show 4 * i + 2 < 4 * i + 4 by omega, show 4 * i + 3 < 4 * i + 4 by omega, if_true]
    simp only [le32, uint32_cast, List.getElem?_cons_zero, List.getElem?_cons_succ,
      Option.getD_some]
    congr 1
    omega
  · intro k hk
    apply load32_congr _ _ _ hql
    intro j h1 h2
    apply hfar
    omega

theorem memcpy_spec (dst : List Nat) (dpos : Nat) (src : List Nat) (spos n : Nat)
    (h1 : spos + n ≤ src.length) (h2 : dpos + n ≤ dst.length) :
    ∃ q, memcpy dst dpos src spos n = some q ∧ q.length = dst.length
      ∧ (∀ j, j < n → q[dpos + j]? = src[spos + j]?)
      ∧ (∀ j, (j < dpos ∨ dpos + n ≤ j) → q[j]? = dst[j]?) := by
  have hb : ∃ bs, load_bytes src spos n = some bs := by
    unfold load_bytes; rw [if_pos h1]; exact ⟨_, rfl⟩
  obtain ⟨bs, hbs⟩ := hb
  have hbl := load_bytes_length _ _ _ _ hbs
  have hs : ∃ q, store_bytes dst dpos bs = some q := by
    unfold store_bytes; rw [if_pos (by rw [hbl]; exact h2)]; exact ⟨_, rfl⟩
  obtain ⟨q, hq⟩ := hs
  have hg := store_bytes_get _ _ _ _ hq
  rw [hbl] at hg
  refine ⟨q, ?_, store_bytes_length _ _ _ _ hq, ?_, ?_⟩
  · unfold memcpy; rw [hbs]; exact hq
  · intro j hj
    rw [hg, if_neg (by omega), if_pos (by omega), Nat.add_sub_cancel_left,
      load_bytes_get _ _ _ _ hbs j hj]
  · intro j hj
    rw [hg]
    rcases hj with hj | hj
    · rw [if_pos hj]
    · rw [if_neg (by omega), if_neg (by omega)]

theorem load32_transfer (p q : List Nat) (k m : Nat) (hp : 4 * k + 4 ≤ p.length)
    (hq : 4 * m + 4 ≤ q.length) (h : ∀ j, j < 4 → p[4 * k + j]? = q[4 * m + j]?) :
    load32 p k = load32 q m := by
  unfold load32
  rw [if_pos hp, if_pos hq]
  simp only [List.getD_eq_getElem?_getD]
  have h0 := h 0 (by omega)
  have h1 := h 1 (by omega)
  have h2 := h 2 (by omega)
  have h3 := h 3 (by omega)
  simp only [Nat.add_zero] at h0
  rw [h0, h1, h2, h3]

/-- The request buffer built by lines 68-81, word by word. -/
theorem property_request_spec (H : Header) (S : Sys) (tag : Nat) (tag_data : List Nat)
    (N : Nat) (hm : S.malloc_ok (request_size S N) = true)
    (hfit : (5 + N / 4 + 1) * 4 < 2 ^ S.size_bits) (hsrc : N ≤ tag_data.length) :
    ∃ p, property_request H S tag tag_data N = .built p
      ∧ p.length = (5 + N / 4 + 1) * 4
      ∧ load32 p 0 = some (((5 + N / 4 + 1) * 4) % 4294967296)
      ∧ load32 p 1 = some (H.RPI_FIRMWARE_STATUS_REQUEST % 4294967296)
      ∧ load32 p 2 = some (tag % 4294967296)
      ∧ load32 p 3 = some (N % 4294967296)
      ∧ load32 p 4 = some 0
      ∧ (∀ k, k < N / 4 → load32 p (5 + k) = load32 tag_data k)
      ∧ load32 p (5 + N / 4) = some (H.RPI_FIRMWARE_PROPERTY_END % 4294967296)
      ∧ (∀ j, j < 4 * (N / 4) → p[20 + j]? = tag_data[j]?) := by
  have hsz : request_size S N = (5 + N / 4 + 1) * 4 := by
    unfold request_size; exact Nat.mod_eq_of_lt hfit
  have hl0 : ((List.range (request_size S N)).map S.uninit).length = (5 + N / 4 + 1) * 4 := by
    simp [hsz]
  obtain ⟨p1, e1, l1, w1, o1, -⟩ :=
    store32_spec ((List.range (request_size S N)).map S.uninit) 0 (request_size S N)
      (by omega)
  obtain ⟨p2, e2, l2, w2, o2, -⟩ :=
    store32_spec p1 1 H.RPI_FIRMWARE_STATUS_REQUEST (by omega)
  obtain ⟨p3, e3, l3, w3, o3, -⟩ := store32_spec p2 2 tag (by omega)
  obtain ⟨p4, e4, l4, w4, o4, -⟩ := store32_spec p3 3 N (by omega)
  obtain ⟨p5, e5, l5, w5, o5, -⟩ := store32_spec p4 4 0 (by omega)
  obtain ⟨p6, e6, l6, c6, f6⟩ := memcpy_spec p5 (4 * 5) tag_data 0 N (by omega) (by omega)
  obtain ⟨p7, e7, l7, w7, o7, f7⟩ :=
    store32_spec p6 (5 + N / 4) H.RPI_FIRMWARE_PROPERTY_END (by omega)
  have head6 : ∀ k, k < 5 → load32 p6 k = load32 p5 k := by
    intro k hk
    apply load32_congr _ _ _ l6
    intro j h1 h2
    exact f6 j (Or.inl (by omega))
  have head7 : ∀ k, k < 5 → load32 p7 k = load32 p5 k := by
    intro k hk
    rw [o7 k (by omega), head6 k hk]
  refine ⟨p7, ?_, by omega, ?_, ?_, ?_, ?_, ?_, ?_, w7, ?_⟩
  · unfold property_request
    simp [hm, e1, e2, e3, e4, e5, e6, e7]
  · rw [head7 0 (by omega), o5 0 (by omega), o4 0 (by omega), o3 0 (by omega),
      o2 0 (by omega), w1, hsz]
  · rw [head7 1 (by omega), o5 1 (by omega), o4 1 (by omega), o3 1 (by omega), w2]
  · rw [head7 2 (by omega), o5 2 (by omega), o4 2 (by omega), w3]
  · rw [head7 3 (by omega), o5 3 (by omega), w4]
  · rw [head7 4 (by omega), w5]
  · intro k hk
    rw [o7 (5 + k) (by omega)]
    apply load32_transfer _ _ _ _ (by omega) (by omega)
    intro j hj
    have := c6 (4 * k + j) (by omega)
    rw [Nat.zero_add] at this
    rw [← this]
    congr 1
    omega
  · intro j hj
    rw [f7 (20 + j) (Or.inl (by omega))]
    have := c6 j (by omega)
    rw [Nat.zero_add] at this
    exact this

theorem pow32_le (S : Sys) (hs : 32 ≤ S.size_bits) : 4294967296 ≤ 2 ^ S.size_bits := by
  have : (2 : Nat) ^ 32 ≤ 2 ^ S.size_bits := Nat.pow_le_pow_right (by norm_num) hs
  norm_num at this
  exact this

/-! ## Theorems on the request buffer -/

/-- C6: for every payload size `N` whose total `(5 + N/4 + 1) * 4` fits in 32
bits, the request buffer is built, its word 0 holds `(5 + N/4 + 1) * 4`, and
that value is the byte length of the block that was allocated and filled, so
that reading word 0 back gives the size of the buffer. -/
theorem request_size_field (H : Header) (S : Sys) (tag : Nat) (tag_data : List Nat)
    (N : Nat) (hm : S.malloc_ok (request_size S N) = true) (hs : 32 ≤ S.size_bits)
    (h32 : (5 + N / 4 + 1) * 4 < 4294967296) (hsrc : N ≤ tag_data.length) :
    ∃ p, property_request H S tag tag_data N = .built p
      ∧ load32 p 0 = some ((5 + N / 4 + 1) * 4)
      ∧ p.length = (5 + N / 4 + 1) * 4
      ∧ load32 p 0 = some p.length := by
  have hfit : (5 + N / 4 + 1) * 4 < 2 ^ S.size_bits :=
    Nat.lt_of_lt_of_le h32 (pow32_le S hs)
  obtain ⟨p, hp, hl, w0, -⟩ := property_request_spec H S tag tag_data N hm hfit hsrc
  rw [Nat.mod_eq_of_lt h32] at w0
  exact ⟨p, hp, w0, hl, by rw [hl]; exact w0⟩

/-- C7: the request buffer is built with word 1 the pending-request code,
word 2 the tag, word 3 the payload size `N`, word 4 zero, words 5 to
`5 + N/4 - 1` the payload words of the caller in order, and the word at
`5 + N/4`, the last of the buffer, the end marker. For a word-aligned `N` the
payload words cover every byte of the payload. -/
theorem request_layout (H : Header) (S : Sys) (tag : Nat) (tag_data : List Nat)
    (N : Nat) (hm : S.malloc_ok (request_size S N) = true) (hs : 32 ≤ S.size_bits)
    (h32 : (5 + N / 4 + 1) * 4 < 4294967296) (hsrc : N ≤ tag_data.length)
    (htag : tag < 4294967296)
    (hreq : H.RPI_FIRMWARE_STATUS_REQUEST < 4294967296)
    (hend : H.RPI_FIRMWARE_PROPERTY_END < 4294967296) :
    ∃ p, property_request H S tag tag_data N = .built p
      ∧ load32 p 1 = some H.RPI_FIRMWARE_STATUS_REQUEST
      ∧ load32 p 2 = some tag
      ∧ load32 p 3 = some N
      ∧ load32 p 4 = some 0
      ∧ (∀ k, k < N / 4 → ∃ v, load32 tag_data k = some v ∧ load32 p (5 + k) = some v)
      ∧ load32 p (5 + N / 4) = some H.RPI_FIRMWARE_PROPERTY_END
      ∧ p.length = 4 * (5 + N / 4) + 4
      ∧ (N % 4 = 0 → ∀ j, j < N → p[4 * 5 + j]? = tag_data[j]?) := by
  have hfit : (5 + N / 4 + 1) * 4 < 2 ^ S.size_bits :=
    Nat.lt_of_lt_of_le h32 (pow32_le S hs)
  obtain ⟨p, hp, hl, -, w1, w2, w3, w4, wp, we, wb⟩ :=
    property_request_spec H S tag tag_data N hm hfit hsrc
  rw [Nat.mod_eq_of_lt hreq] at w1
  rw [Nat.mod_eq_of_lt htag] at w2
  rw [Nat.mod_eq_of_lt (by omega)] at w3
  rw [Nat.mod_eq_of_lt hend] at we
  refine ⟨p, hp, w1, w2, w3, w4, ?_, we, by omega, ?_⟩
  · intro k hk
    have hin : 4 * k + 4 ≤ tag_data.length := by omega
    have hv : ∃ v, load32 tag_data k = some v := by
      unfold load32; rw [if_pos hin]; exact ⟨_, rfl⟩
    obtain ⟨v, hv⟩ := hv
    exact ⟨v, hv, by rw [wp k hk, hv]⟩
  · intro ha j hj
    exact wb j (by omega)

/-- Witness for C6: a four-byte payload in the sample environment. -/
theorem request_size_field_witness :
    sample_sys.malloc_ok (request_size sample_sys 4) = true
    ∧ 32 ≤ sample_sys.size_bits
    ∧ (5 + 4 / 4 + 1) * 4 < 4294967296
    ∧ 4 ≤ [1, 2, 3, 4].length
    ∧ ∃ p, property_request sample_header sample_sys 7 [1, 2, 3, 4] 4 = .built p
      ∧ load32 p 0 = some ((5 + 4 / 4 + 1) * 4)
      ∧ p.length = (5 + 4 / 4 + 1) * 4
      ∧ load32 p 0 = some p.length :=
  ⟨by decide, by decide, by decide, by decide,
    request_size_field sample_header sample_sys 7 [1, 2, 3, 4] 4
      (by decide) (by decide) (by decide) (by decide)⟩

/-- Witness for C7: an eight-byte payload in the sample environment. -/
theorem request_layout_witness :
    sample_sys.malloc_ok (request_size sample_sys 8) = true
    ∧ 32 ≤ sample_sys.size_bits
    ∧ (5 + 8 / 4 + 1) * 4 < 4294967296
    ∧ 8 ≤ [1, 2, 3, 4, 5, 6, 7, 8].length
    ∧ 7 < 4294967296
    ∧ sample_header.RPI_FIRMWARE_STATUS_REQUEST < 4294967296
    ∧ sample_header.RPI_FIRMWARE_PROPERTY_END < 4294967296
    ∧ ∃ p, property_request sample_header sample_sys 7 [1, 2, 3, 4, 5, 6, 7, 8] 8 = .built p
      ∧ load32 p 1 = some sample_header.RPI_FIRMWARE_STATUS_REQUEST
      ∧ load32 p 2 = some 7
      ∧ load32 p 3 = some 8
      ∧ load32 p 4 = some 0
      ∧ (∀ k, k < 8 / 4 →
          ∃ v, load32 [1, 2, 3, 4, 5, 6, 7, 8] k = some v ∧ load32 p (5 + k) = some v)
      ∧ load32 p (5 + 8 / 4) = some sample_header.RPI_FIRMWARE_PROPERTY_END
      ∧ p.length = 4 * (5 + 8 / 4) + 4
      ∧ (8 % 4 = 0 → ∀ j, j < 8 → p[4 * 5 + j]? = [1, 2, 3, 4, 5, 6, 7, 8][j]?) :=
  ⟨by decide, by decide, by decide, by decide, by decide, by decide, by decide,
    request_layout sample_header sample_sys 7 [1, 2, 3, 4, 5, 6, 7, 8] 8
      (by decide) (by decide) (by decide) (by decide) (by decide) (by decide) (by decide)⟩

/-! ## Theorems on `rpi_firmware_property` -/

/-- C5, refuted as stated: in an environment where `malloc` returns no block
the call ends in a fatal exit and leaves `tag_data` alone, although the
control call rejects no buffer and answers every buffer with the success
status in word 1. -/
theorem failure_iff_counterexample :
    rpi_firmware_property sample_header sample_sys_no_memory 3 0x00040010 [0, 0, 0, 0] 4
      = .exit_failure .malloc [0, 0, 0, 0]
    ∧ (rpi_firmware_property sample_header sample_sys_no_memory 3 0x00040010
        [0, 0, 0, 0] 4).fatal
    ∧ ∀ fd p, ∃ r, sample_sys_no_memory.ioctl fd p = some r
        ∧ load32 r 1 = some sample_header.RPI_FIRMWARE_STATUS_SUCCESS := by
  have h : rpi_firmware_property sample_header sample_sys_no_memory 3 0x00040010
      [0, 0, 0, 0] 4 = .exit_failure .malloc [0, 0, 0, 0] := by decide
  refine ⟨h, by rw [h]; trivial, ?_⟩
  intro fd p
  exact ⟨served_answer, rfl, by decide⟩

/-- C5, amended: when `size_t` holds the request size, the buffer `tag_data`
holds `N` bytes and the control call answers in the buffer it was given, the
call is never undefined, and it ends in a fatal exit if and only if `malloc`
returns no block, or the control call is rejected, or the status word 1 of the
answer differs from the success value. At a fatal exit `tag_data` is as it
was. Otherwise the call returns, the status is the success value, the first
`N` bytes of `tag_data` are the `N` bytes of the answer from word 5 on, and
the rest of `tag_data` is as it was. -/
theorem property_call_outcome (H : Header) (S : Sys) (fd tag : Nat) (tag_data : List Nat)
    (N : Nat) (hfit : (5 + N / 4 + 1) * 4 < 2 ^ S.size_bits) (hsrc : N ≤ tag_data.length)
    (hans : ∀ p r, S.ioctl fd p = some r → r.length = p.length) :
    rpi_firmware_property H S fd tag tag_data N ≠ .undefined
    ∧ ((rpi_firmware_property H S fd tag tag_data N).fatal ↔
        (S.malloc_ok (request_size S N) = false
          ∨ ∃ p, property_request H S tag tag_data N = .built p
              ∧ (S.ioctl fd p = none
                ∨ ∃ r st, S.ioctl fd p = some r ∧ load32 r 1 = some st
                    ∧ st ≠ H.RPI_FIRMWARE_STATUS_SUCCESS)))
    ∧ (∀ why s, rpi_firmware_property H S fd tag tag_data N = .exit_failure why s →
        s = tag_data)
    ∧ (¬ (rpi_firmware_property H S fd tag tag_data N).fatal →
        ∃ p r t, property_request H S tag tag_data N = .built p
          ∧ S.ioctl fd p = some r
          ∧ load32 r 1 = some H.RPI_FIRMWARE_STATUS_SUCCESS
          ∧ rpi_firmware_property H S fd tag tag_data N = .returned t
          ∧ t.length = tag_data.length
          ∧ (∀ j, j < N → t[j]? = r[4 * 5 + j]?)
          ∧ (∀ j, N ≤ j → t[j]? = tag_data[j]?)) := by
  by_cases hm : S.malloc_ok (request_size S N) = true
  · obtain ⟨p, hp, hl, -⟩ := property_request_spec H S tag tag_data N hm hfit hsrc
    have hmf : ¬ (S.malloc_ok (request_size S N) = false) := by simp [hm]
    cases hio : S.ioctl fd p with
    | none =>
      have hout : rpi_firmware_property H S fd tag tag_data N
          = .exit_failure .ioctl tag_data := by
        unfold rpi_firmware_property; simp only [hp, hio]
      rw [hout]
      refine ⟨by simp, ?_, ?_, ?_⟩
      · simp only [Outcome.fatal, true_iff]
        exact Or.inr ⟨p, hp, Or.inl hio⟩
      · intro why s h; cases h; rfl
      · intro h; exact absurd trivial h
    | some r =>
      have hrl := hans p r hio
      have hst : ∃ st, load32 r 1 = some st := by
        unfold load32; rw [if_pos (by omega)]; exact ⟨_, rfl⟩
      obtain ⟨st, hst⟩ := hst
      by_cases hs : st = H.RPI_FIRMWARE_STATUS_SUCCESS
      · obtain ⟨t, ht, tl, tc, tf⟩ :=
          memcpy_spec tag_data 0 r (4 * 5) N (by omega) (by omega)
        have hout : rpi_firmware_property H S fd tag tag_data N = .returned t := by
          unfold rpi_firmware_property; simp only [hp, hio, hst, hs, ht]; simp
        rw [hout]
        refine ⟨by simp, ?_, ?_, ?_⟩
        · simp only [Outcome.fatal, false_iff]
          rintro (h | ⟨q, hq, h⟩)
          · exact hmf h
          · have hpq : p = q := Request.built.inj (hp.symm.trans hq)
            subst hpq
            rcases h with h | ⟨r2, st2, h1, h2, h3⟩
            · rw [hio] at h; cases h
            · rw [hio] at h1; cases h1
              rw [hst] at h2; cases h2
              exact h3 hs
        · intro why s h; cases h
        · intro _
          refine ⟨p, r, t, hp, hio, by rw [hst, hs], rfl, tl, ?_, ?_⟩
          · intro j hj
            have := tc j hj
            rw [Nat.zero_add] at this
            exact this
          · intro j hj
            exact tf j (Or.inr (by omega))
      · have hout : rpi_firmware_property H S fd tag tag_data N
            = .exit_failure (.status st) tag_data := by
          unfold rpi_firmware_property; simp only [hp, hio, hst]; simp [hs]
        rw [hout]
        refine ⟨by simp, ?_, ?_, ?_⟩
        · simp only [Outcome.fatal, true_iff]
          exact Or.inr ⟨p, hp, Or.inr ⟨r, st, hio, hst, hs⟩⟩
        · intro why s h; cases h; rfl
        · intro h; exact absurd trivial h
  · have hmf : S.malloc_ok (request_size S N) = false := by simpa using hm
    have hreq : property_request H S tag tag_data N = .exit_failure .malloc := by
      unfold property_request; rw [if_pos hmf]
    have hout : rpi_firmware_property H S fd tag tag_data N
        = .exit_failure .malloc tag_data := by
      unfold rpi_firmware_property; simp only [hreq]
    rw [hout]
    refine ⟨by simp, ?_, ?_, ?_⟩
    · simp only [Outcome.fatal, true_iff]
      exact Or.inl hmf
    · intro why s h; cases h; rfl
    · intro h; exact absurd trivial h

theorem sample_firmware_length (p r : List Nat) (h : sample_firmware p = some r) :
    r.length = p.length := by
  unfold sample_firmware at h
  cases h1 : store32 p 1 0x80000000 with
  | none => rw [h1] at h; cases h
  | some q =>
    rw [h1] at h
    have l1 := store_bytes_length _ _ _ _ h1
    have l2 := store_bytes_length _ _ _ _ (show store_bytes q (4 * 5) _ = some r from h)
    omega

/-- Witness for the amended C5: the address request of `main` in the sample
environment, where the call returns. -/
theorem property_call_outcome_witness :
    (5 + 4 / 4 + 1) * 4 < 2 ^ sample_sys.size_bits
    ∧ 4 ≤ [0, 0, 0, 0].length
    ∧ (∀ p r, sample_sys.ioctl 3 p = some r → r.length = p.length)
    ∧ (rpi_firmware_property sample_header sample_sys 3 0x00040010 [0, 0, 0, 0] 4
        ≠ .undefined
    ∧ ((rpi_firmware_property sample_header sample_sys 3 0x00040010 [0, 0, 0, 0] 4).fatal ↔
        (sample_sys.malloc_ok (request_size sample_sys 4) = false
          ∨ ∃ p, property_request sample_header sample_sys 0x00040010 [0, 0, 0, 0] 4 = .built p
              ∧ (sample_sys.ioctl 3 p = none
                ∨ ∃ r st, sample_sys.ioctl 3 p = some r ∧ load32 r 1 = some st
                    ∧ st ≠ sample_header.RPI_FIRMWARE_STATUS_SUCCESS)))
    ∧ (∀ why s, rpi_firmware_property sample_header sample_sys 3 0x00040010 [0, 0, 0, 0] 4
          = .exit_failure why s → s = [0, 0, 0, 0])
    ∧ (¬ (rpi_firmware_property sample_header sample_sys 3 0x00040010 [0, 0, 0, 0] 4).fatal →
        ∃ p r t, property_request sample_header sample_sys 0x00040010 [0, 0, 0, 0] 4 = .built p
          ∧ sample_sys.ioctl 3 p = some r
          ∧ load32 r 1 = some sample_header.RPI_FIRMWARE_STATUS_SUCCESS
          ∧ rpi_firmware_property sample_header sample_sys 3 0x00040010 [0, 0, 0, 0] 4
              = .returned t
          ∧ t.length = [0, 0, 0, 0].length
          ∧ (∀ j, j < 4 → t[j]? = r[4 * 5 + j]?)
          ∧ (∀ j, 4 ≤ j → t[j]? = [0, 0, 0, 0][j]?))) :=
  ⟨by decide, by decide, fun p r h => sample_firmware_length p r h,
    property_call_outcome sample_header sample_sys 3 0x00040010 [0, 0, 0, 0] 4
      (by decide) (by decide) (fun p r h => sample_firmware_length p r h)⟩

/-! ## Theorems on `main` -/

/-- When every call succeeds, `main` with one argument ends as the toggle
`gpio_set` on line 0 does, with `val` the number `atoi` reads from the
argument. -/
theorem main_of_calls_succeed (H : Header) (S : Sys) (prog arg : String)
    (page : List Nat) (hc : calls_succeed H S) :
    main H S [prog, arg] page =
      match gpio_set page 0 (S.atoi arg) with
      | none => .undefined
      | some q => .returned q := by
  obtain ⟨h28, hm, ⟨mb, hopen, hcv, hio⟩, ⟨fd, hmem, hcm, hmap⟩, hun⟩ := hc
  have hfit : (5 + 4 / 4 + 1) * 4 < 2 ^ S.size_bits := by
    have : (5 + 4 / 4 + 1) * 4 = 28 := by norm_num
    rw [this]; exact h28
  obtain ⟨p, hp, hl, -⟩ := property_request_spec H S
    H.RPI_FIRMWARE_FRAMEBUFFER_GET_GPIOVIRTBUF (le32 0) 4 hm hfit (by decide)
  obtain ⟨r, hr, hrl, hst⟩ := hio p hp
  obtain ⟨t, ht, -⟩ := memcpy_spec (le32 0) 0 r (4 * 5) 4 (by omega) (by decide)
  have hfw : rpi_firmware_property H S mb H.RPI_FIRMWARE_FRAMEBUFFER_GET_GPIOVIRTBUF
      (le32 0) 4 = .returned t := by
    unfold rpi_firmware_property; simp only [hp, hr, hst, ht]; simp
  unfold main rpi_firmware_open mapmem_cpu unmapmem_cpu rpi_firmware_close
  simp only [hopen, hfw, hmem, hmap, hcm, hun, hcv]
  simp

/-- C3: when every call succeeds and `atoi` reads 1 from `"1"` and 0 from
`"0"`, on a page whose word 0 is `0x00000000` the program run with `"1"`
leaves word 0 at `0x00010000` (`enables = 1`, `disables = 0`); run again with
`"1"` it leaves the page as it is; run then with `"0"` it leaves word 0 at
`0x00010001` (`enables = 1`, `disables = 1`). Every run returns, and no other
word of the page changes. -/
theorem end_to_end_scenario (H : Header) (S : Sys) (prog : String) (page : List Nat)
    (hc : calls_succeed H S) (h1 : S.atoi "1" = 1) (h0 : S.atoi "0" = 0)
    (hw : page[0]? = some 0) :
    main H S [prog, "1"] page = .returned (page.set 0 0x00010000)
    ∧ enables_of 0x00010000 = 1 ∧ disables_of 0x00010000 = 0
    ∧ main H S [prog, "1"] (page.set 0 0x00010000) = .returned (page.set 0 0x00010000)
    ∧ main H S [prog, "0"] (page.set 0 0x00010000) = .returned (page.set 0 0x00010001)
    ∧ enables_of 0x00010001 = 1 ∧ disables_of 0x00010001 = 1 := by
  have hlt : 0 < page.length := by
    rcases Nat.lt_or_ge 0 page.length with h | h
    · exact h
    · rw [List.getElem?_eq_none h] at hw; cases hw
  have hw1 : (page.set 0 0x00010000)[0]? = some 0x00010000 := by simp [hlt]
  have c0 : ¬ (currently_on 0 ↔ (1 : Int) ≠ 0) := by decide
  have c1 : (currently_on 0x00010000 ↔ (1 : Int) ≠ 0) := by decide
  have c2 : ¬ (currently_on 0x00010000 ↔ (0 : Int) ≠ 0) := by decide
  have s0 : stepped 0 1 = 0x00010000 := by decide
  have s1 : stepped 0x00010000 0 = 0x00010001 := by decide
  refine ⟨?_, by decide, by decide, ?_, ?_, by decide, by decide⟩
  · rw [main_of_calls_succeed H S prog "1" page hc, h1, gpio_set_eq page 0 1 0 hw,
      if_neg c0, s0]
  · rw [main_of_calls_succeed H S prog "1" _ hc, h1, gpio_set_eq _ 0 1 _ hw1,
      if_pos c1]
  · rw [main_of_calls_succeed H S prog "0" _ hc, h0, gpio_set_eq _ 0 0 _ hw1,
      if_neg c2, s1, List.set_set]

theorem sample_calls_succeed : calls_succeed sample_header sample_sys := by
  refine ⟨by decide, by decide, ⟨3, by decide, rfl, ?_⟩, ⟨4, by decide, rfl, fun _ => rfl⟩, rfl⟩
  intro p hp
  have hb : property_request sample_header sample_sys
      sample_header.RPI_FIRMWARE_FRAMEBUFFER_GET_GPIOVIRTBUF (le32 0) 4
      = .built [28, 0, 0, 0, 0, 0, 0, 0, 16, 0, 4, 0, 4, 0, 0, 0, 0, 0, 0, 0,
          0, 0, 0, 0, 0, 0, 0, 0] := by decide
  have hpe := Request.built.inj (hp.symm.trans hb)
  subst hpe
  exact ⟨[28, 0, 0, 0, 0, 0, 0, 128, 16, 0, 4, 0, 4, 0, 0, 0, 0, 0, 0, 0,
    0, 80, 122, 254, 0, 0, 0, 0], by decide, by decide, by decide⟩

/-- Witness for C3: the sample environment and a two-word page. -/
theorem end_to_end_scenario_witness :
    calls_succeed sample_header sample_sys
    ∧ sample_sys.atoi "1" = 1 ∧ sample_sys.atoi "0" = 0
    ∧ ([0, 9] : List Nat)[0]? = some 0
    ∧ (main sample_header sample_sys ["led", "1"] [0, 9]
        = .returned ([0, 9].set 0 0x00010000)
    ∧ enables_of 0x00010000 = 1 ∧ disables_of 0x00010000 = 0
    ∧ main sample_header sample_sys ["led", "1"] ([0, 9].set 0 0x00010000)
        = .returned ([0, 9].set 0 0x00010000)
    ∧ main sample_header sample_sys ["led", "0"] ([0, 9].set 0 0x00010000)
        = .returned ([0, 9].set 0 0x00010001)
    ∧ enables_of 0x00010001 = 1 ∧ disables_of 0x00010001 = 1) :=
  ⟨sample_calls_succeed, by decide, by decide, by decide,
    end_to_end_scenario sample_header sample_sys "led" [0, 9]
      sample_calls_succeed (by decide) (by decide) (by decide)⟩

/-- What lets `mapmem_cpu` return: `open` gave a descriptor and `mmap` on it,
at the base and size asked for, gave a mapping. -/
theorem mapmem_cpu_ok (S : Sys) (base size : Nat) (u : Unit)
    (h : mapmem_cpu S base size = .ok u) :
    ∃ fd, S.sys_open DEV_MEM = some fd ∧ S.mmap_ok size fd base = true
      ∧ S.sys_close fd = true := by
  unfold mapmem_cpu at h
  cases ho : S.sys_open DEV_MEM with
  | none => rw [ho] at h; cases h
  | some fd =>
    rw [ho] at h
    simp only at h
    by_cases hm : S.mmap_ok size fd base = false
    · rw [if_pos hm] at h; cases h
    · rw [if_neg hm] at h
      by_cases hcl : S.sys_close fd = false
      · rw [if_pos hcl] at h; cases h
      · exact ⟨fd, rfl, by simpa using hm, by simpa using hcl⟩

/-- C8: the address `main` maps is the bus address the firmware returned with
its top two bits masked off. First, for every address `a` the translation
`BUS_TO_PHYS a` equals `a mod 2^30`: bits 31 and 30 are clear, the low 30 bits
are those of `a`, the translation is idempotent and is the identity below
`2^30`. Second, whenever `main` returns, the firmware call returned a buffer
`gvp` and `mmap` gave a mapping of 4096 bytes at the base
`BUS_TO_PHYS (of_le32 gvp)`, which is `of_le32 gvp mod 2^30`. Third, when
`mmap` gives no mapping at that base, `main` exits at `mmap` with the page
untouched, whatever `mmap` would answer at any other base. -/
theorem mapping_address_masked (H : Header) (S : Sys) (argv : List String)
    (page : List Nat) :
    (∀ a, BUS_TO_PHYS a = a % 2 ^ 30
      ∧ BUS_TO_PHYS a < 2 ^ 30
      ∧ (BUS_TO_PHYS a).testBit 31 = false
      ∧ (BUS_TO_PHYS a).testBit 30 = false
      ∧ (∀ i, i < 30 → (BUS_TO_PHYS a).testBit i = a.testBit i)
      ∧ BUS_TO_PHYS (BUS_TO_PHYS a) = BUS_TO_PHYS a
      ∧ (a < 2 ^ 30 → BUS_TO_PHYS a = a))
    ∧ (∀ q, main H S argv page = .returned q →
        ∃ mb gvp fd, rpi_firmware_open S = .ok mb
          ∧ rpi_firmware_property H S mb H.RPI_FIRMWARE_FRAMEBUFFER_GET_GPIOVIRTBUF
              (le32 0) 4 = .returned gvp
          ∧ S.sys_open DEV_MEM = some fd
          ∧ S.mmap_ok 4096 fd (BUS_TO_PHYS (of_le32 gvp)) = true
          ∧ S.mmap_ok 4096 fd (of_le32 gvp % 2 ^ 30) = true)
    ∧ (∀ mb gvp fd, argv.length = 2 → rpi_firmware_open S = .ok mb →
        rpi_firmware_property H S mb H.RPI_FIRMWARE_FRAMEBUFFER_GET_GPIOVIRTBUF
            (le32 0) 4 = .returned gvp →
        S.sys_open DEV_MEM = some fd →
        S.mmap_ok 4096 fd (of_le32 gvp % 2 ^ 30) = false →
        main H S argv page = .exit_failure .mmap page) := by
  refine ⟨BUS_TO_PHYS_facts, ?_, ?_⟩
  · intro q h
    unfold main at h
    split at h
    · cases h
    · simp only at h
      split at h
      · cases h
      · rename_i mb hopen
        split at h
        · cases h
        · cases h
        · rename_i gvp hfw
          split at h
          · cases h
          · rename_i u hmap
            obtain ⟨fd, ho, hm, -⟩ := mapmem_cpu_ok S _ _ u hmap
            refine ⟨mb, gvp, fd, hopen, hfw, ho, hm, ?_⟩
            rw [← (BUS_TO_PHYS_facts (of_le32 gvp)).1]
            exact hm
  · intro mb gvp fd hlen hopen hfw ho hm
    rw [← (BUS_TO_PHYS_facts (of_le32 gvp)).1] at hm
    unfold main
    rw [if_neg (by simp [hlen])]
    simp only [hopen, hfw]
    unfold mapmem_cpu
    simp only [ho, hm, if_true]

/-- Witness for C8: in the sample environment `main` returns, so the second
part applies: the firmware answered `0xFE7A5000` and the page was mapped at
`0x3E7A5000`. -/
theorem mapping_address_masked_witness :
    main sample_header sample_sys ["led", "1"] [0, 9] = .returned [65536, 9]
    ∧ 0xFE7A5000 % 2 ^ 30 = 0x3E7A5000
    ∧ ∃ mb gvp fd, rpi_firmware_open sample_sys = .ok mb
        ∧ rpi_firmware_property sample_header sample_sys mb
            sample_header.RPI_FIRMWARE_FRAMEBUFFER_GET_GPIOVIRTBUF (le32 0) 4 = .returned gvp
        ∧ sample_sys.sys_open DEV_MEM = some fd
        ∧ sample_sys.mmap_ok 4096 fd (BUS_TO_PHYS (of_le32 gvp)) = true
        ∧ sample_sys.mmap_ok 4096 fd (of_le32 gvp % 2 ^ 30) = true :=
  ⟨by decide, by decide,
    (mapping_address_masked sample_header sample_sys ["led", "1"] [0, 9]).2.1
      [65536, 9] (by decide)⟩

end GpioVirtBuf
